import Mathlib

/-!
# string-edit: entry store and page navigation

A shallow embedding of `storage/storage.go` (the SQLite-backed entry store) and of the
request handlers and start-up seeding of `main.go`, followed by the properties proved
about them.

Modelling conventions.

* The database behind `Store.db` is the table `entries` in insertion order together with
  the `AUTOINCREMENT` counter SQLite keeps for it in `sqlite_sequence`.
* Go `string` values are Lean `String`s (well-formed UTF-8); `len(s)` is `s.utf8ByteSize`.
* Go `int` is 64 bit; identifiers are `Int`, and SQLite refuses to allocate a row id
  above `MAX_ROWID = 2^63 - 1`, so no arithmetic of the handlers can overflow.
* A `time.Time` value is its instant together with the abbreviation of the zone in
  effect at its location.  The wall clock (`time.Now()`) and the formatting in the
  display timezone are parameters.  The SQLite driver writes a `time.Time` as the text
  of `Time.String()` and, for a `DATETIME` column, parses that text back on `Scan`;
  the parse is Go's `time.Parse`, which does not accept every zone abbreviation.
* Every call into `database/sql` may report an I/O error.  The outcome of the
  persistence layer during one call is an explicit argument (`AddOutcome`,
  `QueryOutcome`).
* A handler returns the response it writes together with the store calls it made.
* `strconv.Atoi` is read character by character; a character outside ASCII is encoded
  by bytes that are not decimal digits, so this agrees with the byte loop of the library.
-/

namespace StringEdit

/-! ## time.Time through the database driver -/

/-- A `time.Time` value: the instant, in nanoseconds since the epoch, and the
abbreviation of the zone in effect at its location (such as `UTC`, `CEST`, `-03` or
`+0545`), which `Time.String()` prints as its last field. -/
structure Time where
  unixNano : Nat
  zone : String
deriving DecidableEq, Repr

/-- The number a run of decimal digits denotes. -/
def decimalValue (cs : List Char) : Nat :=
  cs.foldl (fun n c => 10 * n + (c.toNat - 48)) 0

/-- Go's `time.parseSignedOffset`: the length of a leading signed offset of at most 23
(such as `+03`), or 0 when there is none. -/
def parseSignedOffset (value : List Char) : Nat :=
  match value with
  | [] => 0
  | sign :: rest =>
    if sign ≠ '-' ∧ sign ≠ '+' then 0
    else
      let digits := rest.takeWhile Char.isDigit
      if digits = [] then 0
      else if decimalValue digits > 23 then 0
      else 1 + digits.length

/-- Go's `time.parseGMT`: `GMT`, possibly followed by a signed offset. -/
def parseGMT (value : List Char) : Nat :=
  let rest := value.drop 3
  if rest = [] then 3 else 3 + parseSignedOffset rest

/-- Go's `time.parseTimeZone`: the length of the zone abbreviation `value` starts with,
or `none` when it does not look like one. -/
def parseTimeZone (value : List Char) : Option Nat :=
  if value.length < 3 then none
  else if value.take 4 = "ChST".data ∨ value.take 4 = "MeST".data then some 4
  else if value.take 3 = "GMT".data then some (parseGMT value)
  else if value.head? = some '+' ∨ value.head? = some '-' then
    (if parseSignedOffset value > 0 then some (parseSignedOffset value) else none)
  else
    let nUpper := ((value.take 6).takeWhile (fun c => 'A' ≤ c ∧ c ≤ 'Z')).length
    if nUpper = 5 then (if value.get? 4 = some 'T' then some 5 else none)
    else if nUpper = 4 then
      (if value.get? 3 = some 'T' ∨ value.take 4 = "WITA".data then some 4 else none)
    else if nUpper = 3 then some 3
    else none

/-- Whether `time.Parse` reads a zone abbreviation at the end of its input: `UTC`, or
an abbreviation `parseTimeZone` accepts, with no text left over. -/
def zoneParses (zone : List Char) : Bool :=
  if zone.take 3 = "UTC".data then zone.length = 3
  else
    match parseTimeZone zone with
    | none => false
    | some n => n = zone.length

/-- What `Scan` into a `time.Time` gives for a `DATETIME` column into which the driver
wrote `t`: the time again when the text of `t.String()` parses, a failure otherwise. -/
def scanTime (t : Time) : Option Time :=
  if zoneParses t.zone.data then some t else none

/-! ## storage/storage.go -/

/-- Entry represents a single saved string in the history. -/
structure Entry where
  ID : Int
  Content : String
  CreatedAt : Time
  IPAddress : String
deriving DecidableEq, Repr

/-- One row of the table `entries`.  The schema declares `id INTEGER PRIMARY KEY
AUTOINCREMENT` and leaves `content`, `created_at` and `ip_address` nullable.  The
column `created_at` holds the time whose `String()` text the driver wrote. -/
structure Row where
  id : Int
  content : Option String
  created_at : Option Time
  ip_address : Option String
deriving DecidableEq, Repr

/-- Store handles database interactions: the rows of `entries`, oldest first, and the
largest row id the table has ever handed out (`sqlite_sequence.seq`, 0 when none). -/
structure Store where
  rows : List Row
  seq : Int
deriving DecidableEq, Repr

/-- Errors surfaced by `database/sql`. -/
inductive DbError where
  | prepare
  | exec
  | full
  | lastInsertId
  | query
  | noRows
  | scanNull
  | scanTime
deriving DecidableEq, Repr

/-- What the persistence layer does during one `AddEntry` call: every step works, or
`Prepare`, `Exec` or `LastInsertId` reports an I/O error. -/
inductive AddOutcome where
  | ok
  | prepareFails
  | execFails
  | lastInsertIdFails
deriving DecidableEq, Repr

/-- What the persistence layer does during one `QueryRow`: it runs, or it reports an
I/O error. -/
inductive QueryOutcome where
  | ok
  | fails
deriving DecidableEq, Repr

/-- Largest row id SQLite can store (`2^63 - 1`). -/
def MAX_ROWID : Int := 9223372036854775807

/-- NewStore on a path without a database file: `CREATE TABLE IF NOT EXISTS` leaves an
empty table whose counter has never advanced. -/
def NewStore : Store := { rows := [], seq := 0 }

/-- The query `SELECT MAX(id) FROM entries`: NULL (`none`) on an empty table. -/
def maxID : List Row → Option Int
  | [] => none
  | r :: rs =>
    match maxID rs with
    | none => some r.id
    | some m => some (max r.id m)

/-- The row id SQLite allocates for an `INSERT` into an `AUTOINCREMENT` table: one more
than the largest id in the table (1 when it is empty), raised to one more than the
recorded counter; `none` (SQLITE_FULL) once the largest id has been reached. -/
def newRowid (s : Store) : Option Int :=
  let v : Option Int :=
    match maxID s.rows with
    | none => some 1
    | some m => if m ≥ MAX_ROWID then none else some (m + 1)
  match v with
  | none => none
  | some v => if s.seq = MAX_ROWID then none else some (max v (s.seq + 1))

/-- AddEntry inserts a new entry into the database, with the clock reading `now` as
its creation time.  The insert is atomic: a failing `Prepare` or `Exec` leaves the
table as it was. -/
def AddEntry (s : Store) (content ip : String) (now : Time) (io : AddOutcome) :
    Store × Except DbError Int :=
  if io = AddOutcome.prepareFails then (s, .error .prepare)
  else if io = AddOutcome.execFails then (s, .error .exec)
  else
    match newRowid s with
    | none => (s, .error .full)
    | some id =>
      let s1 : Store :=
        { rows := s.rows ++ [{ id := id, content := some content,
                               created_at := some now, ip_address := some ip }],
          seq := id }
      if io = AddOutcome.lastInsertIdFails then (s1, .error .lastInsertId)
      else (s1, .ok id)

/-- GetEntry retrieves a specific entry by ID.  `Scan` fails when no row matches, when
a column holds NULL, and when the text stored in `created_at` does not parse as a time. -/
def GetEntry (s : Store) (id : Int) (io : QueryOutcome) : Except DbError Entry :=
  if io = QueryOutcome.fails then .error .query
  else
    match s.rows.find? (fun r => r.id == id) with
    | none => .error .noRows
    | some r =>
      match r.content, r.created_at, r.ip_address with
      | some c, some t, some a =>
        match scanTime t with
        | none => .error .scanTime
        | some t1 => .ok { ID := r.id, Content := c, CreatedAt := t1, IPAddress := a }
      | _, _, _ => .error .scanNull

/-- GetLatestID returns the ID of the most recent entry; it returns 0 with a nil error
if the table is empty (Scan fails on NULL) or the query fails. -/
def GetLatestID (s : Store) (io : QueryOutcome) : Int × Option DbError :=
  if io = QueryOutcome.fails then (0, none)
  else
    match maxID s.rows with
    | none => (0, none)
    | some id => (id, none)

/-! ## strconv.Atoi -/

/-- The loop of `strconv.Atoi`/`ParseUint` in base 10: `n = n*10 + (ch - '0')`, giving
up at the first byte that is not a decimal digit. -/
def parseDigits : List Char → Nat → Option Nat
  | [], n => some n
  | ch :: rest, n =>
    if '0' ≤ ch ∧ ch ≤ '9' then parseDigits rest (n * 10 + (ch.toNat - '0'.toNat))
    else none

/-- Go's `strconv.Atoi` for a 64-bit `int`: an optional sign `+` or `-`, then at
least one decimal digit and nothing else; `none` stands for a non-nil `*NumError`
(syntax, or value out of range). -/
def Atoi (s : String) : Option Int :=
  match s.data with
  | [] => none
  | c :: cs =>
    let digits := if c = '-' ∨ c = '+' then cs else c :: cs
    if digits = [] then none
    else
      match parseDigits digits 0 with
      | none => none
      | some n =>
        if c = '-' then (if n > 2 ^ 63 then none else some (-(n : Int)))
        else (if n ≥ 2 ^ 63 then none else some (n : Int))

/-! ## main.go -/

/-- PageData is passed to the template. -/
structure PageData where
  Content : String
  Timestamp : String
  Editing : Bool
  PrevLink : String
  NextLink : String
  EditLink : String
  CurrentIndex : Int
  TotalCount : Int
deriving DecidableEq, Repr

def maxLen : Nat := 280

/-- What a handler writes: `http.NotFound`, `http.Error(w, msg, code)`,
`http.Redirect(w, r, url, code)`, or the template executed on a `PageData`. -/
inductive Response where
  | notFound
  | error (msg : String) (code : Nat)
  | redirect (url : String) (code : Nat)
  | page (data : PageData)
deriving DecidableEq, Repr

/-- A call made on the store. -/
inductive StoreCall where
  | GetLatestID
  | GetEntry (id : Int)
  | AddEntry (content ip : String)
deriving DecidableEq, Repr

def StatusFound : Nat := 302
def StatusBadRequest : Nat := 400
def StatusInternalServerError : Nat := 500

/-- The `%d` verb of `fmt.Sprintf` on an `int`. -/
def fmtD (n : Int) : String := toString n

/-- The body of the `GET /entry/{id}` handler once `{id}` has been parsed: bounds
check against the latest ID, entry lookup, construction of the page. -/
def resolve (s : Store) (format : Time → String) (edit : String) (id : Int)
    (ioLatest ioEntry : QueryOutcome) : Response × List StoreCall :=
  let latest := (GetLatestID s ioLatest).1
  if id < 1 ∨ id > latest then (.notFound, [.GetLatestID])
  else
    match GetEntry s id ioEntry with
    | .error _ =>
      (.error "Error retrieving entry" StatusInternalServerError,
        [.GetLatestID, .GetEntry id])
    | .ok entry =>
      let isEditing := edit == "true"
      let data : PageData :=
        { Content := entry.Content,
          Timestamp := format entry.CreatedAt,
          Editing := isEditing,
          PrevLink := "",
          NextLink := "",
          EditLink := "/entry/" ++ fmtD id ++ "?edit=true",
          CurrentIndex := id,
          TotalCount := latest }
      let data := if id > 1 then { data with PrevLink := "/entry/" ++ fmtD (id - 1) } else data
      let data := if id < latest then { data with NextLink := "/entry/" ++ fmtD (id + 1) } else data
      (.page data, [.GetLatestID, .GetEntry id])

/-- The `GET /entry/{id}` handler: view or edit a specific entry.  `idStr` is the path
value, `edit` the value of the query parameter `edit`. -/
def handleEntry (s : Store) (format : Time → String) (idStr edit : String)
    (ioLatest ioEntry : QueryOutcome) : Response × List StoreCall :=
  match Atoi idStr with
  | none => (.notFound, [])
  | some id => resolve s format edit id ioLatest ioEntry

/-- The `GET /` handler: redirect root to the newest entry. -/
def handleRoot (s : Store) (path : String) (ioLatest : QueryOutcome) :
    Response × List StoreCall :=
  if path ≠ "/" then (.notFound, [])
  else
    let latest := (GetLatestID s ioLatest).1
    (.redirect ("/entry/" ++ fmtD latest) StatusFound, [.GetLatestID])

/-- The `POST /save` handler: save a new entry.  `host` is the host part
`net.SplitHostPort` extracts from `remoteAddr` (empty when it fails). -/
def handleSave (s : Store) (newText remoteAddr host : String) (now : Time) (io : AddOutcome) :
    Store × Response × List StoreCall :=
  if newText = "" then
    (s, .error "Content cannot be empty" StatusBadRequest, [])
  else if newText.utf8ByteSize > maxLen then
    (s, .error ("Content too long (max " ++ fmtD maxLen ++ " chars)") StatusBadRequest, [])
  else
    let ip := if host = "" then remoteAddr else host
    match AddEntry s newText ip now io with
    | (s1, .error _) =>
      (s1, .error "Failed to save entry" StatusInternalServerError, [.AddEntry newText ip])
    | (s1, .ok newID) =>
      (s1, .redirect ("/entry/" ++ fmtD newID) StatusFound, [.AddEntry newText ip])

/-- The seeding step of `main`: ensure we have at least one entry so the site is not
broken on a fresh start.  The result of the `AddEntry` call is discarded. -/
def seed (s : Store) (now : Time) (ioLatest : QueryOutcome) (ioAdd : AddOutcome) :
    Store × List StoreCall :=
  if (GetLatestID s ioLatest).1 = 0 then
    ((AddEntry s "Hello, World!" "system" now ioAdd).1,
      [.GetLatestID, .AddEntry "Hello, World!" "system"])
  else (s, [.GetLatestID])

/-- A run of `AddEntry` calls, each with its content, origin, clock reading and
persistence outcome; returns the final store and the result of every call in order. -/
def addAll : Store → List (String × String × Time × AddOutcome) → Store × List (Except DbError Int)
  | s, [] => (s, [])
  | s, (content, ip, now, io) :: rest =>
    let r := AddEntry s content ip now io
    let t := addAll r.1 rest
    (t.1, r.2 :: t.2)

/-! ## Notions used in the statements -/

/-- The ids returned by the successful calls of a run, in order. -/
def okIDs : List (Except DbError Int) → List Int
  | [] => []
  | Except.ok id :: rest => id :: okIDs rest
  | Except.error _ :: rest => okIDs rest

/-- The state of a store on which exactly the ids `1 .. k` have been assigned. -/
def Assigned (k : Nat) (s : Store) : Prop :=
  s.seq = (k : Int) ∧ maxID s.rows = if k = 0 then none else some (k : Int)

/-- The stores the program can be in: a new database, then any number of `AddEntry`
calls, whatever their outcome. -/
inductive Reachable : Store → Prop where
  | fresh : Reachable NewStore
  | add {s : Store} (content ip : String) (now : Time) (io : AddOutcome) :
      Reachable s → Reachable (AddEntry s content ip now io).1

/-- A non-empty run of decimal digits. -/
def isDecimal (cs : List Char) : Bool :=
  !cs.isEmpty && cs.all Char.isDigit

/-- The number denoted by a path value that is a non-empty run of decimal digits,
optionally preceded by one plus sign; `none` for every other path value. -/
def plusDecimal (s : String) : Option Nat :=
  let cs := if s.data.head? = some '+' then s.data.tail else s.data
  if isDecimal cs then some (decimalValue cs) else none

/-- A clock reading in a process whose local zone is UTC. -/
def atUTC (n : Nat) : Time := { unixNano := n, zone := "UTC" }

/-- Three appends with a working persistence layer. -/
def threeAdds : List (String × String × Time × AddOutcome) :=
  [("first", "1.2.3.4", atUTC 10, AddOutcome.ok), ("second", "1.2.3.4", atUTC 20, AddOutcome.ok),
   ("third", "5.6.7.8", atUTC 30, AddOutcome.ok)]

/-! ## Properties -/

/-! ### Navigation -/

theorem append_ne_empty_left (a b : String) (h : a ≠ "") : a ++ b ≠ "" := by
  intro hab
  apply h
  have h1 : (a ++ b).data = ("" : String).data := by rw [hab]
  rw [String.data_append] at h1
  have h2 : a.data = [] := (List.append_eq_nil.mp h1).1
  exact String.ext h2

theorem entry_link_ne_empty (n : Int) : "/entry/" ++ fmtD n ≠ "" :=
  append_ne_empty_left _ _ (by decide)

theorem resolve_notFound (s : Store) (format : Time → String) (edit : String) (id : Int)
    (ioLatest ioEntry : QueryOutcome) (h : id < 1 ∨ id > (GetLatestID s ioLatest).1) :
    resolve s format edit id ioLatest ioEntry = (Response.notFound, [StoreCall.GetLatestID]) := by
  simp only [resolve]
  rw [if_pos h]

theorem resolve_page_in_range {s : Store} {format : Time → String} {edit : String} {id : Int}
    {ioLatest ioEntry : QueryOutcome} {data : PageData}
    (h : (resolve s format edit id ioLatest ioEntry).1 = Response.page data) :
    1 ≤ id ∧ id ≤ (GetLatestID s ioLatest).1 := by
  by_cases hr : id < 1 ∨ id > (GetLatestID s ioLatest).1
  · rw [resolve_notFound s format edit id ioLatest ioEntry hr] at h
    cases h
  · omega

/-- C1: a requested position below 1 or above the latest ID is answered not-found, and
the only store call made is the latest-ID query (the entry is never looked up); so
positions 0 and latest + 1 are not-found, and every position is when the latest ID is 0.
The same holds for the handler on any path value parsing to such a position. -/
theorem resolve_out_of_range (s : Store) (format : Time → String) (edit : String)
    (ioLatest ioEntry : QueryOutcome) :
    (∀ id : Int, id < 1 ∨ id > (GetLatestID s ioLatest).1 →
      resolve s format edit id ioLatest ioEntry = (Response.notFound, [StoreCall.GetLatestID])) ∧
    (resolve s format edit 0 ioLatest ioEntry).1 = Response.notFound ∧
    (resolve s format edit ((GetLatestID s ioLatest).1 + 1) ioLatest ioEntry).1
      = Response.notFound ∧
    ((GetLatestID s ioLatest).1 = 0 →
      ∀ id : Int, (resolve s format edit id ioLatest ioEntry).1 = Response.notFound) ∧
    (∀ (idStr : String) (id : Int), Atoi idStr = some id →
      (id < 1 ∨ id > (GetLatestID s ioLatest).1) →
      handleEntry s format idStr edit ioLatest ioEntry
        = (Response.notFound, [StoreCall.GetLatestID])) := by
  have main : ∀ id : Int, id < 1 ∨ id > (GetLatestID s ioLatest).1 →
      resolve s format edit id ioLatest ioEntry
        = (Response.notFound, [StoreCall.GetLatestID]) :=
    fun id h => resolve_notFound s format edit id ioLatest ioEntry h
  refine ⟨main, ?_, ?_, ?_, ?_⟩
  · rw [main 0 (Or.inl (by decide))]
  · rw [main _ (Or.inr (by omega))]
  · intro h0 id
    have : id < 1 ∨ id > (GetLatestID s ioLatest).1 := by
      rw [h0]; omega
    rw [main id this]
  · intro idStr id hparse h
    simp only [handleEntry, hparse]
    exact main id h

theorem resolve_out_of_range_witness :
    resolve (addAll NewStore threeAdds).1 (fun _ => "Jan 01, 1970 00:00:00 UTC") "" 4
      QueryOutcome.ok QueryOutcome.ok = (Response.notFound, [StoreCall.GetLatestID]) :=
  (resolve_out_of_range (addAll NewStore threeAdds).1 (fun _ => "Jan 01, 1970 00:00:00 UTC") ""
    QueryOutcome.ok QueryOutcome.ok).1 4 (Or.inr (by decide))

/-- C2: for an in-range position whose lookup succeeds a page is rendered; its previous
link is empty at position 1, its next link is empty at the latest position, and at every
position strictly between both links are non-empty. -/
theorem resolve_link_presence (s : Store) (format : Time → String) (edit : String)
    (id : Int) (ioLatest ioEntry : QueryOutcome) (entry : Entry)
    (hlo : 1 ≤ id) (hhi : id ≤ (GetLatestID s ioLatest).1)
    (hget : GetEntry s id ioEntry = Except.ok entry) :
    ∃ data : PageData,
      (resolve s format edit id ioLatest ioEntry).1 = Response.page data ∧
      (id = 1 → data.PrevLink = "") ∧
      (id = (GetLatestID s ioLatest).1 → data.NextLink = "") ∧
      (1 < id → id < (GetLatestID s ioLatest).1 →
        data.PrevLink ≠ "" ∧ data.NextLink ≠ "") := by
  have hr : ¬ (id < 1 ∨ id > (GetLatestID s ioLatest).1) := by omega
  simp only [resolve, if_neg hr, hget]
  refine ⟨_, rfl, ?_, ?_, ?_⟩
  · intro h1
    have : ¬ id > 1 := by omega
    simp only [if_neg this]
    split <;> rfl
  · intro h1
    have : ¬ id < (GetLatestID s ioLatest).1 := by omega
    simp only [if_neg this]
    split <;> rfl
  · intro h1 h2
    have h1' : id > 1 := h1
    simp only [if_pos h1', if_pos h2]
    exact ⟨entry_link_ne_empty _, entry_link_ne_empty _⟩

theorem resolve_link_presence_witness :
    ∃ data : PageData,
      (resolve (addAll NewStore threeAdds).1 (fun _ => "Jan 01, 1970 00:00:00 UTC") "" 2
        QueryOutcome.ok QueryOutcome.ok).1 = Response.page data ∧
      ((2 : Int) = 1 → data.PrevLink = "") ∧
      ((2 : Int) = (GetLatestID (addAll NewStore threeAdds).1 QueryOutcome.ok).1 →
        data.NextLink = "") ∧
      ((1 : Int) < 2 → (2 : Int) < (GetLatestID (addAll NewStore threeAdds).1 QueryOutcome.ok).1 →
        data.PrevLink ≠ "" ∧ data.NextLink ≠ "") :=
  resolve_link_presence (addAll NewStore threeAdds).1 (fun _ => "Jan 01, 1970 00:00:00 UTC") ""
    2 QueryOutcome.ok QueryOutcome.ok
    { ID := 2, Content := "second", CreatedAt := atUTC 20, IPAddress := "1.2.3.4" }
    (by decide) (by decide) rfl

/-- C8: for an in-range position whose lookup succeeds the rendered page carries the
entry's content verbatim, the position as current index, the latest ID as total count,
the edit link `/entry/<id>?edit=true`, the previous link `/entry/<id-1>` when id > 1 and
the next link `/entry/<id+1>` when id < latest. -/
theorem resolve_view_fields (s : Store) (format : Time → String) (edit : String)
    (id : Int) (ioLatest ioEntry : QueryOutcome) (entry : Entry)
    (hlo : 1 ≤ id) (hhi : id ≤ (GetLatestID s ioLatest).1)
    (hget : GetEntry s id ioEntry = Except.ok entry) :
    ∃ data : PageData,
      (resolve s format edit id ioLatest ioEntry).1 = Response.page data ∧
      data.Content = entry.Content ∧
      data.CurrentIndex = id ∧
      data.TotalCount = (GetLatestID s ioLatest).1 ∧
      data.EditLink = "/entry/" ++ fmtD id ++ "?edit=true" ∧
      (id > 1 → data.PrevLink = "/entry/" ++ fmtD (id - 1)) ∧
      (id < (GetLatestID s ioLatest).1 → data.NextLink = "/entry/" ++ fmtD (id + 1)) := by
  have hr : ¬ (id < 1 ∨ id > (GetLatestID s ioLatest).1) := by omega
  simp only [resolve, if_neg hr, hget]
  refine ⟨_, rfl, ?_, ?_, ?_, ?_, ?_, ?_⟩
  · split <;> split <;> rfl
  · split <;> split <;> rfl
  · split <;> split <;> rfl
  · split <;> split <;> rfl
  · intro h1
    simp only [if_pos h1]
    split <;> rfl
  · intro h2
    simp only [if_pos h2]

theorem resolve_view_fields_witness :
    ∃ data : PageData,
      (resolve (addAll NewStore threeAdds).1 (fun _ => "Jan 01, 1970 00:00:00 UTC") "" 2
        QueryOutcome.ok QueryOutcome.ok).1 = Response.page data ∧
      data.Content = "second" ∧
      data.CurrentIndex = 2 ∧
      data.TotalCount = 3 ∧
      data.EditLink = "/entry/2?edit=true" ∧
      data.PrevLink = "/entry/1" ∧
      data.NextLink = "/entry/3" := by
  obtain ⟨data, hpage, hc, hi, ht, he, hp, hn⟩ :=
    resolve_view_fields (addAll NewStore threeAdds).1
      (fun _ => "Jan 01, 1970 00:00:00 UTC") "" 2 QueryOutcome.ok QueryOutcome.ok
      { ID := 2, Content := "second", CreatedAt := atUTC 20, IPAddress := "1.2.3.4" }
      (by decide) (by decide) rfl
  exact ⟨data, hpage, hc, hi, ht, he, hp (by decide), hn (by decide)⟩

/-! ### Saving -/

theorem length_le_utf8ByteSize (s : String) : s.length ≤ s.utf8ByteSize := by
  cases s with
  | mk cs =>
    simp only [String.length, String.utf8ByteSize_mk]
    induction cs with
    | nil => simp
    | cons c cs ih =>
      have := c.utf8Size_pos
      simp only [List.length_cons, String.utf8Len_cons]
      omega

theorem handleSave_too_long (s : Store) (newText remoteAddr host : String) (now : Time)
    (io : AddOutcome) (hb : newText.utf8ByteSize > maxLen) :
    handleSave s newText remoteAddr host now io
      = (s, Response.error "Content too long (max 280 chars)" StatusBadRequest, []) := by
  have hne : newText ≠ "" := by
    intro h0
    rw [h0] at hb
    exact absurd hb (by decide)
  simp only [handleSave, if_neg hne, if_pos hb]
  rfl

theorem utf8Len_replicate (n : Nat) (c : Char) :
    String.utf8Len (List.replicate n c) = n * c.utf8Size := by
  induction n with
  | zero => simp
  | succ n ih =>
    simp only [List.replicate_succ, String.utf8Len_cons, ih]
    rw [Nat.succ_mul]

/-- A content of 1 to 280 bytes passes validation and is handed to `AddEntry`
together with the caller's origin. -/
theorem handleSave_accepts (s : Store) (newText remoteAddr host : String) (now : Time)
    (io : AddOutcome) (hne : newText ≠ "") (hlen : newText.utf8ByteSize ≤ maxLen) :
    (handleSave s newText remoteAddr host now io).2.2
      = [StoreCall.AddEntry newText (if host = "" then remoteAddr else host)] := by
  have hb : ¬ newText.utf8ByteSize > maxLen := by omega
  simp only [handleSave, if_neg hne, if_neg hb]
  split <;> rfl

/-- C3: an empty `newText` is answered bad-request "Content cannot be empty", and a
`newText` longer than 280 (in characters, or in bytes as the handler measures it) is
answered bad-request "Content too long (max 280 chars)"; in both cases no store call
is made and the store is returned unchanged, so the latest ID is the same as before. -/
theorem handleSave_rejects (s : Store) (newText remoteAddr host : String) (now : Time)
    (io : AddOutcome) :
    (newText = "" →
      handleSave s newText remoteAddr host now io
        = (s, Response.error "Content cannot be empty" StatusBadRequest, [])) ∧
    (280 < newText.length ∨ 280 < newText.utf8ByteSize →
      handleSave s newText remoteAddr host now io
        = (s, Response.error "Content too long (max 280 chars)" StatusBadRequest, [])) ∧
    (newText = "" ∨ 280 < newText.length ∨ 280 < newText.utf8ByteSize →
      ∀ q : QueryOutcome,
        GetLatestID (handleSave s newText remoteAddr host now io).1 q = GetLatestID s q) := by
  have hlong : 280 < newText.length ∨ 280 < newText.utf8ByteSize →
      handleSave s newText remoteAddr host now io
        = (s, Response.error "Content too long (max 280 chars)" StatusBadRequest, []) := by
    intro h
    have hb : newText.utf8ByteSize > maxLen := by
      have := length_le_utf8ByteSize newText
      simp only [maxLen]
      omega
    exact handleSave_too_long s newText remoteAddr host now io hb
  have hempty : newText = "" →
      handleSave s newText remoteAddr host now io
        = (s, Response.error "Content cannot be empty" StatusBadRequest, []) := by
    intro h
    simp only [handleSave, if_pos h]
  refine ⟨hempty, hlong, ?_⟩
  intro h q
  rcases h with h | h
  · rw [hempty h]
  · rw [hlong h]

theorem handleSave_rejects_witness :
    handleSave NewStore "" "1.2.3.4:5555" "1.2.3.4" (atUTC 0) AddOutcome.ok
      = (NewStore, Response.error "Content cannot be empty" StatusBadRequest, []) :=
  (handleSave_rejects NewStore "" "1.2.3.4:5555" "1.2.3.4" (atUTC 0) AddOutcome.ok).1 rfl

/-- C4: a content of 141 characters, each two bytes long in UTF-8, is within the limit
of 280 characters, and the handler rejects it as too long without calling the store. -/
theorem handleSave_counts_bytes (s : Store) (remoteAddr host : String) (now : Time)
    (io : AddOutcome) :
    (String.mk (List.replicate 141 'é')).length = 141 ∧
    handleSave s (String.mk (List.replicate 141 'é')) remoteAddr host now io
      = (s, Response.error "Content too long (max 280 chars)" StatusBadRequest, []) := by
  refine ⟨by simp [String.length], ?_⟩
  apply handleSave_too_long
  rw [String.utf8ByteSize_mk, utf8Len_replicate]
  decide

/-! ### The store -/

theorem maxID_eq_none {rows : List Row} : maxID rows = none ↔ rows = [] := by
  cases rows with
  | nil => simp [maxID]
  | cons r rs =>
    simp only [maxID]
    cases maxID rs <;> simp

theorem le_of_maxID {rows : List Row} {m : Int} (h : maxID rows = some m) :
    ∀ r ∈ rows, r.id ≤ m := by
  induction rows generalizing m with
  | nil => intro r hr; cases hr
  | cons a rs ih =>
    intro r hr
    simp only [maxID] at h
    cases hm : maxID rs with
    | none =>
      rw [hm] at h
      have hnil : rs = [] := maxID_eq_none.mp hm
      subst hnil
      simp only [List.mem_singleton] at hr
      subst hr
      simp only [Option.some.injEq] at h
      omega
    | some k =>
      rw [hm] at h
      simp only [Option.some.injEq] at h
      rcases List.mem_cons.mp hr with hr | hr
      · subst hr; omega
      · have := ih hm r hr
        omega

theorem maxID_append (rows : List Row) (r : Row) :
    maxID (rows ++ [r]) =
      some (match maxID rows with
            | none => r.id
            | some m => max m r.id) := by
  induction rows with
  | nil => simp [maxID]
  | cons a rs ih =>
    have hstep : maxID (a :: (rs ++ [r])) =
        match maxID (rs ++ [r]) with
        | none => some a.id
        | some m => some (max a.id m) := rfl
    rw [List.cons_append, hstep, ih]
    simp only [maxID]
    cases maxID rs with
    | none => rfl
    | some k =>
      simp only [Option.some.injEq]
      exact (max_assoc a.id k r.id).symm

/-- Every id SQLite allocates is larger than every id in the table and larger than the
recorded counter. -/
theorem newRowid_fresh {s : Store} {id : Int} (h : newRowid s = some id) :
    s.seq < id ∧ ∀ r ∈ s.rows, r.id < id := by
  simp only [newRowid] at h
  cases hm : maxID s.rows with
  | none =>
    rw [hm] at h
    have hnil : s.rows = [] := maxID_eq_none.mp hm
    simp only at h
    split at h
    · cases h
    · simp only [Option.some.injEq] at h
      rw [hnil]
      refine ⟨by omega, ?_⟩
      intro r hr; cases hr
  | some m =>
    rw [hm] at h
    simp only at h
    split at h
    · cases h
    · rename_i v hv
      split at hv
      · cases hv
      · simp only [Option.some.injEq] at hv
        split at h
        · cases h
        · simp only [Option.some.injEq] at h
          have hle := le_of_maxID hm
          refine ⟨by omega, ?_⟩
          intro r hr
          have := hle r hr
          omega

/-- A successful `AddEntry` ran with a working persistence layer, returned the id
SQLite allocated and appended exactly one row carrying its arguments. -/
theorem AddEntry_ok {s : Store} {content ip : String} {now : Time} {io : AddOutcome} {id : Int}
    (h : (AddEntry s content ip now io).2 = Except.ok id) :
    io = AddOutcome.ok ∧ newRowid s = some id ∧
    (AddEntry s content ip now io).1 =
      { rows := s.rows ++ [{ id := id, content := some content,
                             created_at := some now, ip_address := some ip }],
        seq := id } := by
  unfold AddEntry at h ⊢
  cases io <;> cases hn : newRowid s <;> simp_all

/-- An `AddEntry` call leaves the store as it was or appends one row with a newly
allocated id. -/
theorem AddEntry_state (s : Store) (content ip : String) (now : Time) (io : AddOutcome) :
    (AddEntry s content ip now io).1 = s ∨
    ∃ id, newRowid s = some id ∧
      (AddEntry s content ip now io).1 =
        { rows := s.rows ++ [{ id := id, content := some content,
                               created_at := some now, ip_address := some ip }],
          seq := id } := by
  unfold AddEntry
  cases io <;> cases hn : newRowid s <;> simp

theorem assigned_newStore : Assigned 0 NewStore := by
  simp [Assigned, NewStore, maxID]

theorem newRowid_of_assigned {k : Nat} {s : Store} (h : Assigned k s) :
    newRowid s = if (k : Int) ≥ MAX_ROWID then none else some ((k : Int) + 1) := by
  obtain ⟨hseq, hmax⟩ := h
  simp only [newRowid, hseq, hmax]
  by_cases hk : k = 0
  · subst hk
    simp [MAX_ROWID]
  · simp only [if_neg hk]
    by_cases hfull : (k : Int) ≥ MAX_ROWID
    · simp [hfull]
    · have hne : ¬ (k : Int) = MAX_ROWID := by omega
      simp [hfull, hne]

theorem assigned_insert {k : Nat} {s : Store} {id : Int} (row : Row) (h : Assigned k s)
    (hnew : newRowid s = some id) (hrow : row.id = id) :
    id = (k : Int) + 1 ∧ Assigned (k + 1) { rows := s.rows ++ [row], seq := id } := by
  rw [newRowid_of_assigned h] at hnew
  split at hnew
  · cases hnew
  · simp only [Option.some.injEq] at hnew
    refine ⟨hnew.symm, ?_⟩
    obtain ⟨hseq, hmax⟩ := h
    refine ⟨by simp [← hnew], ?_⟩
    simp only [maxID_append, hmax, hrow]
    by_cases hk : k = 0
    · subst hk
      simp [← hnew]
    · have hmx : max (k : Int) ((k : Int) + 1) = (k : Int) + 1 := max_eq_right (by omega)
      simp only [if_neg hk, Nat.succ_ne_zero, if_false, Option.some.injEq, ← hnew, hmx]
      push_cast
      rfl

theorem assigned_step {k : Nat} {s : Store} {content ip : String} {now : Time} {io : AddOutcome}
    {id : Int} (h : Assigned k s) (hok : (AddEntry s content ip now io).2 = Except.ok id) :
    id = (k : Int) + 1 ∧ Assigned (k + 1) (AddEntry s content ip now io).1 := by
  obtain ⟨_, hnew, hstore⟩ := AddEntry_ok hok
  rw [hstore]
  exact assigned_insert _ h hnew rfl

theorem assigned_succeeds {k : Nat} {s : Store} (content ip : String) (now : Time)
    (h : Assigned k s) (hk : (k : Int) < MAX_ROWID) :
    (AddEntry s content ip now AddOutcome.ok).2 = Except.ok ((k : Int) + 1) := by
  have hnew := newRowid_of_assigned h
  have hnot : ¬ (k : Int) ≥ MAX_ROWID := by omega
  rw [if_neg hnot] at hnew
  simp [AddEntry, hnew]

/-- A run of successful `AddEntry` calls on a store holding the ids `1 .. k` returns
`k + 1, k + 2, ...` and leaves the ids `1 .. k + n` assigned. -/
theorem addAll_assigned (cs : List (String × String × Time × AddOutcome)) :
    ∀ (k : Nat) (s : Store), Assigned k s →
      (∀ r ∈ (addAll s cs).2, ∃ id, r = Except.ok id) →
      (addAll s cs).2 = (List.range cs.length).map (fun (i : Nat) => Except.ok ((k : Int) + (i : Int) + 1)) ∧
      Assigned (k + cs.length) (addAll s cs).1 := by
  induction cs with
  | nil =>
    intro k s h _
    exact ⟨by simp [addAll], by simpa [addAll] using h⟩
  | cons c cs ih =>
    intro k s h hall
    obtain ⟨content, ip, now, io⟩ := c
    simp only [addAll] at hall ⊢
    obtain ⟨id, hid⟩ := hall _ (List.mem_cons_self _ _)
    obtain ⟨hval, hnext⟩ := assigned_step h hid
    obtain ⟨hres, hfin⟩ := ih (k + 1) _ hnext
      (fun r hr => hall r (List.mem_cons_of_mem _ hr))
    refine ⟨?_, ?_⟩
    · rw [hid, hres, hval, List.length_cons, List.range_succ_eq_map]
      simp only [List.map_cons, List.map_map]
      refine congrArg₂ List.cons (by simp) ?_
      refine List.map_congr_left ?_
      intro i _
      simp only [Function.comp]
      push_cast
      congr 1
      omega
    · rw [List.length_cons]
      have e : k + (cs.length + 1) = k + 1 + cs.length := by omega
      rw [e]
      exact hfin

/-- A run of `AddEntry` calls with a working persistence layer succeeds throughout, as
long as the row ids are not exhausted. -/
theorem addAll_succeeds (cs : List (String × String × Time × AddOutcome)) :
    ∀ (k : Nat) (s : Store), Assigned k s →
      (∀ c ∈ cs, c.2.2.2 = AddOutcome.ok) → ((k + cs.length : Nat) : Int) ≤ MAX_ROWID →
      ∀ r ∈ (addAll s cs).2, ∃ id, r = Except.ok id := by
  induction cs with
  | nil =>
    intro k s _ _ _ r hr
    simp [addAll] at hr
  | cons c cs ih =>
    intro k s h hio hlen r hr
    obtain ⟨content, ip, now, io⟩ := c
    have hio0 : io = AddOutcome.ok := hio _ (List.mem_cons_self _ _)
    subst hio0
    simp only [List.length_cons] at hlen
    have hk : (k : Int) < MAX_ROWID := by push_cast at hlen; omega
    have hfirst := assigned_succeeds content ip now h hk
    simp only [addAll] at hr
    rcases List.mem_cons.mp hr with hr | hr
    · exact ⟨_, hr.trans hfirst⟩
    · have hnext := (assigned_step h hfirst).2
      refine ih (k + 1) _ hnext (fun c hc => hio c (List.mem_cons_of_mem _ hc)) ?_ r hr
      have e : k + 1 + cs.length = k + (cs.length + 1) := by omega
      rw [e]
      exact hlen

/-- A failing `AddEntry` call leaves the store as it was, unless the failure is that of
`LastInsertId`, which comes after the insert. -/
theorem AddEntry_error_state {s : Store} {content ip : String} {now : Time} {io : AddOutcome}
    {e : DbError} (hio : io ≠ AddOutcome.lastInsertIdFails)
    (h : (AddEntry s content ip now io).2 = Except.error e) :
    (AddEntry s content ip now io).1 = s := by
  unfold AddEntry at h ⊢
  cases io <;> cases hn : newRowid s <;> simp_all

/-- In a run on a store holding the ids `1 .. k` in which no call loses its id to a
failing `LastInsertId`, the successful calls return `k + 1, k + 2, ...` in order. -/
theorem okIDs_assigned (cs : List (String × String × Time × AddOutcome)) :
    ∀ (k : Nat) (s : Store), Assigned k s →
      (∀ c ∈ cs, c.2.2.2 ≠ AddOutcome.lastInsertIdFails) →
      okIDs (addAll s cs).2 =
        (List.range (okIDs (addAll s cs).2).length).map
          (fun (i : Nat) => (k : Int) + (i : Int) + 1) := by
  induction cs with
  | nil =>
    intro k s _ _
    simp [addAll, okIDs]
  | cons c cs ih =>
    intro k s h hio
    obtain ⟨content, ip, now, io⟩ := c
    have hio0 : io ≠ AddOutcome.lastInsertIdFails := hio _ (List.mem_cons_self _ _)
    have hrest : ∀ c ∈ cs, c.2.2.2 ≠ AddOutcome.lastInsertIdFails :=
      fun c hc => hio c (List.mem_cons_of_mem _ hc)
    simp only [addAll]
    cases hres : (AddEntry s content ip now io).2 with
    | error e =>
      simp only [okIDs]
      have hst := AddEntry_error_state hio0 hres
      rw [hst]
      exact ih k s h hrest
    | ok id =>
      simp only [okIDs, List.length_cons]
      obtain ⟨hval, hnext⟩ := assigned_step h hres
      have hrec := ih (k + 1) _ hnext hrest
      rw [List.range_succ_eq_map]
      simp only [List.map_cons, List.map_map]
      refine congrArg₂ List.cons (by simp [hval]) ?_
      refine hrec.trans (List.map_congr_left ?_)
      intro i _
      simp only [Function.comp]
      push_cast
      omega

/-- C5: on a fresh store a run of `AddEntry` calls that all succeed returns the ids
1, 2, 3, ... in order (the k-th call returns k); such runs exist: with a working
persistence layer every call succeeds until the row ids are exhausted.  When failing
calls are interleaved that do not reach the insert, the successful calls still return
1, 2, 3, ... in order. -/
theorem addAll_fresh_ids (cs : List (String × String × Time × AddOutcome)) :
    ((∀ c ∈ cs, c.2.2.2 = AddOutcome.ok) → (cs.length : Int) ≤ MAX_ROWID →
      ∀ r ∈ (addAll NewStore cs).2, ∃ id, r = Except.ok id) ∧
    ((∀ r ∈ (addAll NewStore cs).2, ∃ id, r = Except.ok id) →
      (addAll NewStore cs).2
          = (List.range cs.length).map (fun (i : Nat) => Except.ok ((i : Int) + 1)) ∧
      ∀ k : Nat, k < cs.length →
        (addAll NewStore cs).2[k]? = some (Except.ok ((k : Int) + 1))) ∧
    ((∀ c ∈ cs, c.2.2.2 ≠ AddOutcome.lastInsertIdFails) →
      okIDs (addAll NewStore cs).2 =
        (List.range (okIDs (addAll NewStore cs).2).length).map
          (fun (i : Nat) => (i : Int) + 1)) := by
  refine ⟨?_, ?_, ?_⟩
  rotate_left 2
  · intro hio
    have h := okIDs_assigned cs 0 NewStore assigned_newStore hio
    refine h.trans (List.map_congr_left ?_)
    intro i _
    simp
  · intro hio hlen
    exact addAll_succeeds cs 0 NewStore assigned_newStore hio (by simpa using hlen)
  · intro hall
    have h := (addAll_assigned cs 0 NewStore assigned_newStore hall).1
    have h' : (addAll NewStore cs).2
        = (List.range cs.length).map (fun (i : Nat) => Except.ok ((i : Int) + 1)) := by
      rw [h]
      refine List.map_congr_left ?_
      intro i _
      simp
    refine ⟨h', ?_⟩
    intro k hk
    rw [h']
    simp [List.getElem?_map, List.getElem?_range hk]

theorem addAll_fresh_ids_witness :
    (addAll NewStore threeAdds).2 = [Except.ok 1, Except.ok 2, Except.ok 3] :=
  ((addAll_fresh_ids threeAdds).2.1
    ((addAll_fresh_ids threeAdds).1 (by decide) (by decide))).1

/-- Whatever the outcomes of its calls, a run on a store holding the ids `1 .. k` leaves
the ids `1 .. n` assigned for some `n ≥ k`, and no call returns an id above `n`. -/
theorem addAll_assigned_any (cs : List (String × String × Time × AddOutcome)) :
    ∀ (k : Nat) (s : Store), Assigned k s →
      ∃ n : Nat, k ≤ n ∧ Assigned n (addAll s cs).1 ∧
        ∀ id : Int, Except.ok id ∈ (addAll s cs).2 → id ≤ (n : Int) := by
  induction cs with
  | nil =>
    intro k s h
    exact ⟨k, Nat.le_refl k, by simpa [addAll] using h, by simp [addAll]⟩
  | cons c cs ih =>
    intro k s h
    obtain ⟨content, ip, now, io⟩ := c
    simp only [addAll]
    cases hres : (AddEntry s content ip now io).2 with
    | ok id0 =>
      obtain ⟨hval, hnext⟩ := assigned_step h hres
      obtain ⟨n, hn, hfin, hids⟩ := ih (k + 1) _ hnext
      refine ⟨n, by omega, hfin, ?_⟩
      intro id hid
      rcases List.mem_cons.mp hid with hid | hid
      · simp only [Except.ok.injEq] at hid
        have : ((k + 1 : Nat) : Int) ≤ (n : Int) := by exact_mod_cast hn
        push_cast at this
        omega
      · exact hids id hid
    | error e =>
      rcases AddEntry_state s content ip now io with hsame | ⟨id0, hnew, hst⟩
      · rw [hsame]
        obtain ⟨n, hn, hfin, hids⟩ := ih k s h
        refine ⟨n, hn, hfin, ?_⟩
        intro id hid
        rcases List.mem_cons.mp hid with hid | hid
        · cases hid
        · exact hids id hid
      · have hnext := (assigned_insert
            { id := id0, content := some content, created_at := some now,
              ip_address := some ip } h hnew rfl).2
        rw [hst]
        obtain ⟨n, hn, hfin, hids⟩ := ih (k + 1) _ hnext
        refine ⟨n, by omega, hfin, ?_⟩
        intro id hid
        rcases List.mem_cons.mp hid with hid | hid
        · cases hid
        · exact hids id hid

theorem GetLatestID_of_assigned {k : Nat} {s : Store} (h : Assigned k s) :
    GetLatestID s QueryOutcome.ok = ((k : Int), none) := by
  obtain ⟨_, hmax⟩ := h
  simp only [GetLatestID, hmax]
  by_cases hk : k = 0
  · simp [hk]
  · simp [hk]

/-- C6 (amended): `GetLatestID` returns 0 on a store without entries and whenever its
query fails.  After any run of `AddEntry` calls on a fresh store a latest-ID query that
runs without error returns the largest id ever assigned, which no returned id exceeds;
after N calls that all succeed it returns N, the id the last call returned. -/
theorem GetLatestID_after_appends (cs : List (String × String × Time × AddOutcome)) :
    (∀ (s : Store) (io : QueryOutcome), s.rows = [] → GetLatestID s io = (0, none)) ∧
    (∀ s : Store, GetLatestID s QueryOutcome.fails = (0, none)) ∧
    (GetLatestID (addAll NewStore cs).1 QueryOutcome.ok
        = ((addAll NewStore cs).1.seq, none) ∧
      ∀ id : Int, Except.ok id ∈ (addAll NewStore cs).2 →
        id ≤ (GetLatestID (addAll NewStore cs).1 QueryOutcome.ok).1) ∧
    ((∀ r ∈ (addAll NewStore cs).2, ∃ id, r = Except.ok id) →
      GetLatestID (addAll NewStore cs).1 QueryOutcome.ok = ((cs.length : Int), none) ∧
      (∀ id : Int, Except.ok id ∈ (addAll NewStore cs).2 → id ≤ (cs.length : Int)) ∧
      (cs ≠ [] → Except.ok (cs.length : Int) ∈ (addAll NewStore cs).2)) := by
  refine ⟨?_, ?_, ?_, ?_⟩
  · intro s io hs
    simp only [GetLatestID, hs, maxID]
    split <;> rfl
  · intro s
    simp [GetLatestID]
  · obtain ⟨n, _, hfin, hids⟩ := addAll_assigned_any cs 0 NewStore assigned_newStore
    rw [GetLatestID_of_assigned hfin]
    exact ⟨by rw [hfin.1], hids⟩
  · intro hall
    obtain ⟨hres, hfin⟩ := addAll_assigned cs 0 NewStore assigned_newStore hall
    simp only [Nat.zero_add] at hfin
    refine ⟨GetLatestID_of_assigned hfin, ?_, ?_⟩
    · intro id hid
      rw [hres] at hid
      obtain ⟨i, hi, he⟩ := List.mem_map.mp hid
      have hi' := List.mem_range.mp hi
      simp only [Except.ok.injEq] at he
      push_cast at he
      omega
    · intro hne
      rw [hres]
      refine List.mem_map.mpr ⟨cs.length - 1, List.mem_range.mpr ?_, ?_⟩
      · have : 0 < cs.length := List.length_pos.mpr hne
        omega
      · have : 0 < cs.length := List.length_pos.mpr hne
        simp only [Except.ok.injEq]
        push_cast
        omega

theorem GetLatestID_after_appends_witness :
    GetLatestID NewStore QueryOutcome.fails = (0, none) ∧
    GetLatestID (addAll NewStore threeAdds).1 QueryOutcome.ok = (3, none) :=
  ⟨(GetLatestID_after_appends threeAdds).1 NewStore QueryOutcome.fails rfl,
   ((GetLatestID_after_appends threeAdds).2.2.2
      (addAll_succeeds threeAdds 0 NewStore assigned_newStore (by decide) (by decide))).1⟩

/-- C6 as stated fails: after three successful `AddEntry` calls on a fresh store a
latest-ID query that fails returns 0, not 3. -/
theorem GetLatestID_failed_query :
    (addAll NewStore threeAdds).2 = [Except.ok 1, Except.ok 2, Except.ok 3] ∧
    GetLatestID (addAll NewStore threeAdds).1 QueryOutcome.fails = (0, none) :=
  ⟨rfl, rfl⟩

theorem digit_test (ch : Char) : ('0' ≤ ch ∧ ch ≤ '9') ↔ ch.isDigit = true := by
  simp only [Char.isDigit, Bool.and_eq_true, decide_eq_true_eq, Char.le_def]
  rfl

theorem parseDigits_eq (cs : List Char) :
    ∀ n : Nat, parseDigits cs n =
      if cs.all Char.isDigit then some (cs.foldl (fun n c => 10 * n + (c.toNat - 48)) n)
      else none := by
  induction cs with
  | nil => intro n; simp [parseDigits]
  | cons c cs ih =>
    intro n
    simp only [parseDigits, List.all_cons, List.foldl_cons, digit_test]
    by_cases hc : c.isDigit = true
    · simp only [hc, if_true, Bool.true_and, ih]
      have e : n * 10 + (c.toNat - '0'.toNat) = 10 * n + (c.toNat - 48) := by
        have : '0'.toNat = 48 := rfl
        rw [this]; omega
      rw [e]
    · simp [hc]

/-- A path value `Atoi` parses to a positive number is a run of decimal digits,
optionally preceded by a plus sign, denoting that number. -/
theorem Atoi_pos {s : String} {id : Int} (h : Atoi s = some id) (hpos : 1 ≤ id) :
    ∃ n : Nat, plusDecimal s = some n ∧ (n : Int) = id := by
  unfold Atoi at h
  unfold plusDecimal
  cases hd : s.data with
  | nil => rw [hd] at h; cases h
  | cons c cs =>
    rw [hd] at h
    simp only [parseDigits_eq] at h
    simp only [List.head?_cons, List.tail_cons, Option.some.injEq]
    by_cases hminus : c = '-'
    · subst hminus
      simp only [true_or, if_true] at h
      by_cases hne : cs = []
      · simp [hne] at h
      · by_cases hall : cs.all Char.isDigit = true
        · simp only [if_neg hne, hall, if_true] at h
          by_cases hr : cs.foldl (fun n c => 10 * n + (c.toNat - 48)) 0 > 2 ^ 63
          · rw [if_pos hr] at h; cases h
          · simp only [if_neg hr, Option.some.injEq] at h
            omega
        · simp [hne, hall] at h
    · by_cases hplus : c = '+'
      · subst hplus
        simp only [or_true, if_true, hminus, if_false] at h
        simp only [if_true]
        by_cases hne : cs = []
        · simp [hne] at h
        · by_cases hall : cs.all Char.isDigit = true
          · simp only [if_neg hne, hall, if_true] at h
            by_cases hr : cs.foldl (fun n c => 10 * n + (c.toNat - 48)) 0 ≥ 2 ^ 63
            · rw [if_pos hr] at h; cases h
            · simp only [if_neg hr, Option.some.injEq] at h
              have hdec : isDecimal cs = true := by
                simp only [isDecimal, Bool.and_eq_true, hall, and_true]
                cases cs with
                | nil => exact absurd rfl hne
                | cons _ _ => rfl
              exact ⟨_, by simp only [hdec, if_true, decimalValue], h⟩
          · simp [hne, hall] at h
      · have hor : ¬ (c = '-' ∨ c = '+') := by
          intro h'; rcases h' with h' | h'
          · exact hminus h'
          · exact hplus h'
        simp only [hminus, hplus, or_self, if_false] at h
        simp only [if_neg hplus]
        have hne : c :: cs ≠ [] := List.cons_ne_nil _ _
        by_cases hall : (c :: cs).all Char.isDigit = true
        · simp only [if_neg hne, hall, if_true] at h
          by_cases hr : (c :: cs).foldl (fun n c => 10 * n + (c.toNat - 48)) 0 ≥ 2 ^ 63
          · rw [if_pos hr] at h; cases h
          · simp only [if_neg hr, Option.some.injEq] at h
            have hdec : isDecimal (c :: cs) = true := by
              simp only [isDecimal, Bool.and_eq_true, hall, and_true]
              rfl
            exact ⟨_, by simp only [hdec, if_true, decimalValue], h⟩
        · simp only [if_neg hne, hall] at h
          simp at h

/-! ### Start-up -/

/-! Stores written by the program alone meet the conditions under which `seed` is
described below: their ids are positive, and an empty one never assigned an id. -/

theorem reachable_assigned {s : Store} (h : Reachable s) : ∃ k : Nat, Assigned k s := by
  induction h with
  | fresh => exact ⟨0, assigned_newStore⟩
  | add content ip now io _ ih =>
    obtain ⟨k, hk⟩ := ih
    rcases AddEntry_state _ content ip now io with hsame | ⟨id, hnew, hst⟩
    · rw [hsame]; exact ⟨k, hk⟩
    · rw [hst]; exact ⟨k + 1, (assigned_insert _ hk hnew rfl).2⟩

/-- Every id in a reachable store is positive. -/
theorem reachable_ids_pos {s : Store} (h : Reachable s) : ∀ r ∈ s.rows, 1 ≤ r.id := by
  induction h with
  | fresh => intro r hr; cases hr
  | @add s0 content ip now io hs0 ih =>
    obtain ⟨k, hseq, _⟩ := reachable_assigned hs0
    rcases AddEntry_state s0 content ip now io with hsame | ⟨id, hnew, hst⟩
    · rw [hsame]; exact ih
    · rw [hst]
      intro r hr
      rcases List.mem_append.mp hr with hr | hr
      · exact ih r hr
      · simp only [List.mem_singleton] at hr
        subst hr
        have := (newRowid_fresh hnew).1
        simp only
        omega

/-- A reachable store without entries is the new store. -/
theorem reachable_empty {s : Store} (h : Reachable s) (hrows : s.rows = []) : s = NewStore := by
  obtain ⟨k, hseq, hmax⟩ := reachable_assigned h
  rw [hrows] at hmax
  have hk : k = 0 := by
    by_cases hk : k = 0
    · exact hk
    · simp [maxID, hk] at hmax
  subst hk
  cases s with
  | mk rows seq =>
    simp only at hrows hseq
    simp [NewStore, hrows, hseq]

/-- On a reachable store with entries the latest-ID query, when it runs, returns a
positive id. -/
theorem reachable_latest_pos {s : Store} (h : Reachable s) (hrows : s.rows ≠ []) :
    1 ≤ (GetLatestID s QueryOutcome.ok).1 := by
  obtain ⟨k, hseq, hmax⟩ := reachable_assigned h
  have hk : k ≠ 0 := by
    intro hk
    rw [hk] at hmax
    exact hrows (maxID_eq_none.mp (by simpa using hmax))
  simp only [GetLatestID, hmax, if_neg hk]
  simp only [reduceIte, reduceCtorEq]
  omega

theorem GetLatestID_empty (s : Store) (io : QueryOutcome) (hs : s.rows = []) :
    GetLatestID s io = (0, none) := by
  simp only [GetLatestID, hs, maxID]
  split <;> rfl

theorem GetLatestID_fails (s : Store) : GetLatestID s QueryOutcome.fails = (0, none) := by
  simp [GetLatestID]

theorem maxID_mem {rows : List Row} {m : Int} (h : maxID rows = some m) :
    ∃ r ∈ rows, r.id = m := by
  induction rows generalizing m with
  | nil => simp [maxID] at h
  | cons a rs ih =>
    simp only [maxID] at h
    cases hm : maxID rs with
    | none =>
      rw [hm] at h
      simp only [Option.some.injEq] at h
      exact ⟨a, List.mem_cons_self _ _, h⟩
    | some k =>
      rw [hm] at h
      simp only [Option.some.injEq] at h
      by_cases hak : k ≤ a.id
      · exact ⟨a, List.mem_cons_self _ _, by omega⟩
      · obtain ⟨r, hr, hid⟩ := ih hm
        exact ⟨r, List.mem_cons_of_mem _ hr, by omega⟩

/-- C9 (amended): start-up attempts the bootstrap `AddEntry("Hello, World!", "system")`
exactly when the start-up latest-ID query returns 0, which is exactly when the store is
empty, that query fails, or the largest stored id is 0.  An empty store whose seeding
append succeeds ends start-up holding exactly that one entry; the latest ID is then its
ID, which is one more than the largest id the table ever assigned, so 1 on a store that
never assigned one.  A store holding entries, all with positive ids, is left untouched
when the query runs. -/
theorem seed_bootstrap (s : Store) (now : Time) (ioLatest : QueryOutcome)
    (ioAdd : AddOutcome) :
    (StoreCall.AddEntry "Hello, World!" "system" ∈ (seed s now ioLatest ioAdd).2 ↔
      (GetLatestID s ioLatest).1 = 0) ∧
    ((GetLatestID s ioLatest).1 = 0 ↔
      (s.rows = [] ∨ ioLatest = QueryOutcome.fails ∨ maxID s.rows = some 0)) ∧
    (∀ id : Int, s.rows = [] →
      (AddEntry s "Hello, World!" "system" now ioAdd).2 = Except.ok id →
      (seed s now ioLatest ioAdd).1.rows =
        [{ id := id, content := some "Hello, World!", created_at := some now,
           ip_address := some "system" }] ∧
      GetLatestID (seed s now ioLatest ioAdd).1 QueryOutcome.ok = (id, none) ∧
      id = max 1 (s.seq + 1) ∧
      (s.seq = 0 → id = 1)) ∧
    (s.rows ≠ [] → (∀ r ∈ s.rows, 1 ≤ r.id) → ioLatest = QueryOutcome.ok →
      seed s now ioLatest ioAdd = (s, [StoreCall.GetLatestID])) := by
  have hzero : (GetLatestID s ioLatest).1 = 0 ↔
      (s.rows = [] ∨ ioLatest = QueryOutcome.fails ∨ maxID s.rows = some 0) := by
    cases ioLatest with
    | fails => simp [GetLatestID]
    | ok =>
      simp only [GetLatestID]
      cases hm : maxID s.rows with
      | none => simp [maxID_eq_none.mp hm]
      | some m =>
        have hne : s.rows ≠ [] := by
          intro hnil
          rw [hnil] at hm
          simp [maxID] at hm
        simp [hne]
  refine ⟨?_, hzero, ?_, ?_⟩
  · by_cases h0 : (GetLatestID s ioLatest).1 = 0
    · simp [seed, h0]
    · simp [seed, h0]
  · intro id hrows hok
    have h0 : (GetLatestID s ioLatest).1 = 0 := hzero.mpr (Or.inl hrows)
    obtain ⟨_, hnew, hstore⟩ := AddEntry_ok hok
    have hid : id = max 1 (s.seq + 1) := by
      simp only [newRowid, hrows, maxID] at hnew
      split at hnew
      · cases hnew
      · simp only [Option.some.injEq] at hnew
        exact hnew.symm
    have hseed : (seed s now ioLatest ioAdd).1 =
        { rows := [{ id := id, content := some "Hello, World!", created_at := some now,
                     ip_address := some "system" }],
          seq := id } := by
      simp only [seed, if_pos h0, hstore, hrows, List.nil_append]
    rw [hseed]
    refine ⟨rfl, ?_, hid, ?_⟩
    · simp [GetLatestID, maxID]
    · intro hseq
      rw [hid, hseq]
      rfl
  · intro hrows hpos hio
    subst hio
    have h0 : ¬ (GetLatestID s QueryOutcome.ok).1 = 0 := by
      intro h0
      rcases hzero.mp h0 with h | h | h
      · exact hrows h
      · cases h
      · obtain ⟨r, hr, hid⟩ := maxID_mem h
        have := hpos r hr
        omega
    simp only [seed, if_neg h0]

theorem seed_bootstrap_witness :
    (seed NewStore (atUTC 7) QueryOutcome.ok AddOutcome.ok).1.rows =
      [{ id := 1, content := some "Hello, World!", created_at := some (atUTC 7),
         ip_address := some "system" }] :=
  ((seed_bootstrap NewStore (atUTC 7) QueryOutcome.ok AddOutcome.ok).2.2.1 1 rfl rfl).1

/-- C9 as stated fails: a store that already holds an entry is given a bootstrap entry
when the start-up latest-ID query fails; and an empty store whose table assigned ids
before is seeded with the next unused id, not with 1. -/
theorem seed_after_failed_query :
    (AddEntry NewStore "kept" "1.2.3.4" (atUTC 10) AddOutcome.ok).1.rows ≠ [] ∧
    (seed (AddEntry NewStore "kept" "1.2.3.4" (atUTC 10) AddOutcome.ok).1 (atUTC 20)
        QueryOutcome.fails AddOutcome.ok).1.rows =
      [{ id := 1, content := some "kept", created_at := some (atUTC 10),
         ip_address := some "1.2.3.4" },
       { id := 2, content := some "Hello, World!", created_at := some (atUTC 20),
         ip_address := some "system" }] ∧
    (seed { rows := [], seq := 3 } (atUTC 20) QueryOutcome.ok AddOutcome.ok).1.rows =
      [{ id := 4, content := some "Hello, World!", created_at := some (atUTC 20),
         ip_address := some "system" }] := by
  decide

theorem plusDecimal_none {v : String} (h : plusDecimal v = none) :
    ¬ ∃ n : Nat, plusDecimal v = some n ∧ 1 ≤ n := by
  rintro ⟨n, hn, _⟩
  rw [h] at hn
  cases hn

/-- C10 (amended): a path value that is not a non-empty run of decimal digits,
optionally preceded by one plus sign, denoting a value of at least 1 is answered
not-found (so are "abc", "", "-3" and "1.0"); a page is rendered only for such a
path value whose value lies within [1, latest]. -/
theorem handleEntry_path_value (s : Store) (format : Time → String) (idStr edit : String)
    (ioLatest ioEntry : QueryOutcome) :
    ((¬ ∃ n : Nat, plusDecimal idStr = some n ∧ 1 ≤ n) →
      (handleEntry s format idStr edit ioLatest ioEntry).1 = Response.notFound) ∧
    (∀ data : PageData,
      (handleEntry s format idStr edit ioLatest ioEntry).1 = Response.page data →
      ∃ n : Nat, plusDecimal idStr = some n ∧ 1 ≤ n ∧
        (n : Int) ≤ (GetLatestID s ioLatest).1) ∧
    (∀ v ∈ ["abc", "", "-3", "1.0"],
      (handleEntry s format v edit ioLatest ioEntry).1 = Response.notFound) := by
  have key : ∀ v : String, (¬ ∃ n : Nat, plusDecimal v = some n ∧ 1 ≤ n) →
      (handleEntry s format v edit ioLatest ioEntry).1 = Response.notFound := by
    intro v hno
    unfold handleEntry
    cases hp : Atoi v with
    | none => rfl
    | some id =>
      simp only
      by_cases hpos : 1 ≤ id
      · obtain ⟨n, hn, hval⟩ := Atoi_pos hp hpos
        exact absurd ⟨n, hn, by omega⟩ hno
      · rw [resolve_notFound s format edit id ioLatest ioEntry (Or.inl (by omega))]
  refine ⟨key idStr, ?_, ?_⟩
  · intro data hpage
    unfold handleEntry at hpage
    cases hp : Atoi idStr with
    | none => rw [hp] at hpage; cases hpage
    | some id =>
      rw [hp] at hpage
      simp only at hpage
      obtain ⟨hlo, hhi⟩ := resolve_page_in_range hpage
      obtain ⟨n, hn, hval⟩ := Atoi_pos hp hlo
      exact ⟨n, hn, by omega, by omega⟩
  · intro v hv
    apply key
    simp only [List.mem_cons, List.mem_singleton, List.not_mem_nil, or_false] at hv
    rcases hv with rfl | rfl | rfl | rfl
    · exact plusDecimal_none (by decide)
    · exact plusDecimal_none (by decide)
    · exact plusDecimal_none (by decide)
    · exact plusDecimal_none (by decide)

theorem handleEntry_path_value_witness :
    (handleEntry (addAll NewStore threeAdds).1 (fun _ => "Jan 01, 1970 00:00:00 UTC")
      "two" "" QueryOutcome.ok QueryOutcome.ok).1 = Response.notFound :=
  (handleEntry_path_value (addAll NewStore threeAdds).1 (fun _ => "Jan 01, 1970 00:00:00 UTC")
    "two" "" QueryOutcome.ok QueryOutcome.ok).1
    (plusDecimal_none (by decide))

/-- C10 as stated fails: the path value "+1" is not a run of decimal digits, and the
handler renders the page of entry 1 for it. -/
theorem handleEntry_plus_one :
    isDecimal "+1".data = false ∧
    (handleEntry (seed NewStore (atUTC 0) QueryOutcome.ok AddOutcome.ok).1 (fun _ => "Jan 01, 1970 00:00:00 UTC")
      "+1" "" QueryOutcome.ok QueryOutcome.ok).1 =
      Response.page
        { Content := "Hello, World!", Timestamp := "Jan 01, 1970 00:00:00 UTC",
          Editing := false, PrevLink := "", NextLink := "",
          EditLink := "/entry/1?edit=true", CurrentIndex := 1, TotalCount := 1 } := by
  decide

end StringEdit
